import Mathlib

/-!
Shallow embedding of spunge (main.go) in Lean 4, together with theorems
settling the frozen claims about it.  Pure helpers (template resolution,
the transfer loop, the copy policy) are translated as executable
functions; OS calls (stat, chmod, rename, file writes) are modelled by
explicit environments holding each call's result, and the file system is
an explicit map from path to byte content so that the effect of a run can
be stated and evaluated.
-/

namespace Spunge

/-- Bytes are modelled as naturals (Go `byte` = uint8; only equality of
byte sequences matters here, so no modular arithmetic is needed). -/
abbrev Byte := Nat

abbrev Bytes := List Byte

/-- Go strings, as lists of characters. -/
abbrev GoStr := List Char

/-- Errors observable in main.go.  `eof` is io.EOF, `notExist` is an error
satisfying os.IsNotExist, `shortWrite` is io.ErrShortWrite, the three named
constructors are the errors Copy builds itself, and `code n` stands for any
other OS-level error value. -/
inductive GoErr where
  | eof
  | notExist
  | shortWrite
  | sameName
  | nonRegularSource
  | nonRegularDest
  | code (n : Nat)
deriving DecidableEq, Repr

/-- strings.Replace(s, old, new, -1): replace every non-overlapping
occurrence of `old` in `s` by `new`, scanning left to right.  `fuel`
bounds the recursion and is passed as `s.length + 1` by `goReplaceAll`,
which is enough because every step consumes at least one character of `s`
when `old` is nonempty; Go's empty-pattern behaviour (insert `new` before
every character and once at the end) needs no recursion. -/
def replaceFuel : Nat → GoStr → GoStr → GoStr → GoStr
  | 0, s, _, _ => s
  | _fuel+1, s, [], new => new ++ s.foldr (fun c acc => c :: (new ++ acc)) []
  | fuel+1, s, o :: os, new =>
    if (o :: os).isPrefixOf s then
      new ++ replaceFuel fuel (s.drop (o :: os).length) (o :: os) new
    else
      match s with
      | [] => []
      | c :: cs => c :: replaceFuel fuel cs (o :: os) new

/-- strings.Replace with n = -1, as used by TempDir and BackupFile. -/
def goReplaceAll (s old new : GoStr) : GoStr :=
  replaceFuel (s.length + 1) s old new

/-- Characters after the last slash of `p` (all of `p` when there is no
slash): the `file` half of path.Split. -/
def afterLastSlash (p : GoStr) : GoStr :=
  (p.reverse.takeWhile (fun c => c ≠ '/')).reverse

/-- Characters of `p` up to and including the last slash (empty when there
is no slash): the `dir` half of path.Split. -/
def upToLastSlash (p : GoStr) : GoStr :=
  (p.reverse.dropWhile (fun c => c ≠ '/')).reverse

/-- path.Base: empty path gives ".", otherwise drop trailing slashes, take
what follows the last remaining slash, and an all-slash path gives "/". -/
def pathBase (p : GoStr) : GoStr :=
  if p = [] then ['.']
  else
    let q := (p.reverse.dropWhile (fun c => c = '/')).reverse
    let r := afterLastSlash q
    if r = [] then ['/'] else r

/-- Index scan used by the dot-dot branch of path.Clean: starting from the
buffer's last index, walk left while the index is above `dotdot` and the
buffer character at the index is not a slash; the result is the new live
length of the buffer (Go: `out.w--; for out.w > dotdot && out.index(out.w)
!= '/' { out.w-- }`). -/
def popScan (out : GoStr) (dotdot : Nat) : Nat → Nat
  | 0 => 0
  | w+1 => if dotdot < w+1 ∧ out.getD (w+1) ' ' ≠ '/' then popScan out dotdot w else w+1

/-- Main loop of path.Clean over indices of `p`, carrying the output buffer
and the dot-dot barrier.  `fuel` bounds the iterations and is passed as
`p.length`, enough because every iteration advances `r` by at least one. -/
def cleanLoop (p : GoStr) (rooted : Bool) : Nat → Nat → GoStr → Nat → GoStr
  | 0, _r, out, _dotdot => out
  | fuel+1, r, out, dotdot =>
    if r < p.length then
      let c := p.getD r ' '
      if c = '/' then
        cleanLoop p rooted fuel (r+1) out dotdot
      else if c = '.' ∧ (r+1 = p.length ∨ p.getD (r+1) ' ' = '/') then
        cleanLoop p rooted fuel (r+1) out dotdot
      else if c = '.' ∧ p.getD (r+1) ' ' = '.' ∧ (r+2 = p.length ∨ p.getD (r+2) ' ' = '/') then
        if dotdot < out.length then
          cleanLoop p rooted fuel (r+2) (out.take (popScan out dotdot (out.length - 1))) dotdot
        else if !rooted then
          let out1 := if 0 < out.length then out ++ ['/'] else out
          let out2 := out1 ++ ['.', '.']
          cleanLoop p rooted fuel (r+2) out2 out2.length
        else
          cleanLoop p rooted fuel (r+2) out dotdot
      else
        let out1 := if (rooted ∧ out.length ≠ 1) ∨ (¬rooted ∧ out.length ≠ 0)
          then out ++ ['/'] else out
        let seg := (p.drop r).takeWhile (fun ch => ch ≠ '/')
        cleanLoop p rooted fuel (r + seg.length) (out1 ++ seg) dotdot
    else out

/-- path.Clean: lexically canonicalize a slash-separated path. -/
def pathClean (p : GoStr) : GoStr :=
  if p = [] then ['.']
  else
    let rooted := p.getD 0 ' ' = '/'
    let out0 : GoStr := if rooted then ['/'] else []
    let dotdot0 : Nat := if rooted then 1 else 0
    let r0 : Nat := if rooted then 1 else 0
    let out := cleanLoop p rooted p.length r0 out0 dotdot0
    if out = [] then ['.'] else out

/-- path.Dir: the dir half of path.Split, cleaned. -/
def pathDir (p : GoStr) : GoStr := pathClean (upToLastSlash p)

/-- TempDir (main.go 305-311): an empty override means the target's
directory; otherwise expand the {dir} and {base} tokens in the override.
Note the source performs no {file} replacement here. -/
def TempDir (tempDir targetFn : GoStr) : GoStr :=
  if tempDir = [] then pathDir targetFn
  else
    goReplaceAll (goReplaceAll tempDir "{dir}".toList (pathDir targetFn))
      "{base}".toList (pathBase targetFn)

/-- BackupFile (main.go 313-317): expand {dir}, {base} and then {file} in
the backup template. -/
def BackupFile (backupFile targetFn : GoStr) : GoStr :=
  goReplaceAll
    (goReplaceAll (goReplaceAll backupFile "{dir}".toList (pathDir targetFn))
      "{base}".toList (pathBase targetFn))
    "{file}".toList targetFn

/-! ## The transfer loop -/

/-- One result of os.File.Read: the bytes delivered and the error value
returned alongside them (Go allows n > 0 together with a non-nil error,
including io.EOF). -/
structure ReadStep where
  chunk : Bytes
  err : Option GoErr
deriving DecidableEq, Repr

/-- Outcome of the transfer loop.  `ranOut` is a modelling artifact: the
finite list of read results was exhausted while the Go loop would have
issued another Read; no claim is about that case. -/
inductive TOut where
  | success
  | failure (e : GoErr)
  | ranOut
deriving DecidableEq, Repr

/-- The body's write step (main.go 116-118): `if n > 0 { sf.Write(buf[:n]) }`;
the error returned by Write is discarded. -/
def transferStep {σ : Type} (w : σ → Bytes → σ × Option GoErr) (r : ReadStep) (s : σ) : σ :=
  if 0 < r.chunk.length then (w s r.chunk).1 else s

/-- Transfer (main.go 110-127), generic over the sponge: read, write any
bytes delivered, return nil on a zero-byte EOF read, return the read error
otherwise, and loop on error-free reads.  The outer `err` variable is
shadowed by the loop-local `err`, so the loop condition never becomes
false and the loop exits only through the two returns, which is how this
recursion is structured. -/
def Transfer {σ : Type} (w : σ → Bytes → σ × Option GoErr) :
    List ReadStep → σ → σ × TOut
  | [], s => (s, .ranOut)
  | r :: rest, s =>
    let s1 := transferStep w r s
    if r.chunk.length = 0 ∧ r.err = some .eof then (s1, .success)
    else
      match r.err with
      | some e => (s1, .failure e)
      | none => Transfer w rest s1

/-- The loop outcome determined by the read results alone. -/
def transferOutcome : List ReadStep → TOut
  | [] => .ranOut
  | r :: rest =>
    if r.chunk.length = 0 ∧ r.err = some .eof then .success
    else
      match r.err with
      | some e => .failure e
      | none => transferOutcome rest

/-- Concatenation of the chunks the loop hands to Write before it stops:
the byte sequence S delivered by the input stream. -/
def deliveredChunks : List ReadStep → Bytes
  | [] => []
  | r :: rest =>
    if r.chunk.length = 0 ∧ r.err = some .eof then []
    else
      match r.err with
      | some _ => r.chunk
      | none => r.chunk ++ deliveredChunks rest

/-! ## File-system model -/

/-- File-system operations main.go performs that change file contents.
Permission-bit changes (chmod) touch no content and are accounted for in
the per-call result models below. -/
inductive FsOp where
  | createEmpty (fn : GoStr)
  | appendFile (fn : GoStr) (b : Bytes)
  | writeWhole (fn : GoStr) (b : Bytes)
  | renameFile (src dst : GoStr)
  | removeFile (fn : GoStr)
deriving DecidableEq, Repr

/-- A file system: contents by path (none = the path does not exist). -/
def FS := GoStr → Option Bytes

def FS.set (fs : FS) (fn : GoStr) (v : Option Bytes) : FS :=
  fun x => if x = fn then v else fs x

def FsOp.apply (fs : FS) : FsOp → FS
  | .createEmpty fn => fs.set fn (some [])
  | .appendFile fn b => fs.set fn (some ((fs fn).getD [] ++ b))
  | .writeWhole fn b => fs.set fn (some b)
  | .renameFile src dst =>
    match fs src with
    | none => fs
    | some c => (fs.set src none).set dst (some c)
  | .removeFile fn => fs.set fn none

def applyOps (fs : FS) (ops : List FsOp) : FS := ops.foldl FsOp.apply fs

/-- Does the operation mutate the binding at path `t`? -/
def FsOp.touches (t : GoStr) : FsOp → Bool
  | .createEmpty fn => fn == t
  | .appendFile fn _ => fn == t
  | .writeWhole fn _ => fn == t
  | .renameFile src dst => src == t || dst == t
  | .removeFile fn => fn == t

/-! ## Sponges -/

/-- Result of a run of SpongeAction's sponge lifecycle. -/
inductive RunRes where
  | ok
  | err (e : GoErr)
  | panicked
  | ranOut
deriving DecidableEq, Repr

def DEFAULT_MODE : Nat := 0o600

/-- MemorySponge.Write and AtomicMemorySponge.Write (main.go 267-272,
413-418): append to the in-memory buffer; never fails. -/
def memWrite (s : Bytes) (d : Bytes) : Bytes × Option GoErr := (s ++ d, none)

/-- Environment for MemorySponge.Complete: the result of os.Stat on the
target and of the whole-buffer ioutil.WriteFile. -/
structure MemEnv where
  statTarget : Except GoErr Nat
  writeFileErr : Option GoErr

inductive MemCompleteOut where
  | panicked
  | failed (e : GoErr)
  | wrote (mode : Nat)
deriving DecidableEq, Repr

/-- MemorySponge.Complete (main.go 274-289).  The source reads
`mode := DEFAULT_MODE; if err != nil { mode = fi.Mode() }`: after the
guard, err != nil implies the stat failed with not-exist, so fi is the nil
interface and `fi.Mode()` is a nil dereference (modelled as `panicked`);
when the stat succeeded, mode remains DEFAULT_MODE, and WriteFile is
called with the buffer and that mode. -/
def memorySpongeComplete (env : MemEnv) : MemCompleteOut :=
  match env.statTarget with
  | .error e =>
    if e ≠ .notExist then .failed e
    else .panicked
  | .ok _mode =>
    match env.writeFileErr with
    | some e => .failed e
    | none => .wrote DEFAULT_MODE

/-- Per-call write results the OS hands to AtomicSponge.Write: bytes
actually written and error.  An empty list means every write completes in
full with no error. -/
abbrev WriteResults := List (Nat × Option GoErr)

/-- AtomicSponge.Write (main.go 343-353) acting on a state carrying the
pending OS write results and the file operations performed so far: the OS
writes n bytes of d to the sponge file (appending `d.take n`), and the
method returns the OS error if any, io.ErrShortWrite if n < len(d), and
nil otherwise -- a return value the transfer loop ignores. -/
def atomicWriteStep (sp : GoStr) (st : WriteResults × List FsOp) (d : Bytes) :
    (WriteResults × List FsOp) × Option GoErr :=
  let res := match st.1 with
    | [] => (d.length, (none : Option GoErr))
    | r :: _ => r
  let rest := match st.1 with
    | [] => ([] : WriteResults)
    | _ :: rs => rs
  let written := d.take res.1
  let ret : Option GoErr :=
    match res.2 with
    | some e => some e
    | none => if res.1 < d.length then some .shortWrite else none
  ((rest, st.2 ++ [FsOp.appendFile sp written]), ret)

/-- Environment for AtomicSponge.Complete: results of the Close, the
os.Stat of the target, the os.Chmod of the sponge file, and the os.Rename. -/
structure CompleteEnv where
  closeErr : Option GoErr
  statTarget : Except GoErr Nat
  chmodErr : Option GoErr
  renameErr : Option GoErr

/-- AtomicSponge.Complete (main.go 355-378): close the sponge file (error
returned), stat the target (a failure other than not-exist returned), on a
successful stat chmod the sponge file to the target's mode with the chmod
error logged and discarded, then rename the sponge file onto the target
(error returned).  Returns the content operations performed and the
result. -/
def atomicComplete (sp target : GoStr) (env : CompleteEnv) : List FsOp × Option GoErr :=
  match env.closeErr with
  | some e => ([], some e)
  | none =>
    match env.statTarget with
    | .error e =>
      if e ≠ .notExist then ([], some e)
      else
        match env.renameErr with
        | some e1 => ([], some e1)
        | none => ([FsOp.renameFile sp target], none)
    | .ok _mode =>
      match env.renameErr with
      | some e1 => ([], some e1)
      | none => ([FsOp.renameFile sp target], none)

/-- AtomicSponge.Cleanup (main.go 380-394): a no-op when leave-dirty is
set or the sponge file no longer exists, otherwise remove it. -/
def cleanupOps (fs : FS) (sp : GoStr) (leaveDirty : Bool) : List FsOp :=
  if leaveDirty then []
  else
    match fs sp with
    | none => []
    | some _ => [FsOp.removeFile sp]

/-- Environment for a staged (AtomicSponge) or hybrid (AtomicMemorySponge)
run: the TempFile result (error, or the fresh name chosen), the OS write
results, the Complete-phase call results, and the leave-dirty flag. -/
structure StagedEnv where
  beginErr : Option GoErr
  spongeFn : GoStr
  writeResults : WriteResults
  completeEnv : CompleteEnv
  leaveDirty : Bool

/-! ## Runs of SpongeAction's sponge lifecycle

SpongeAction (main.go 55-108) drives the sponge as: sf.Begin (on failure,
return), deferred sf.Cleanup, Transfer, on transfer failure sf.Abort and
return, otherwise sf.Complete.  The backup controller is the no-op NoBackup
here (its own behaviour is modelled separately below); with a backup
configured, Copy either rejects a destination equal to the target or works
on the distinct backup path, so it performs no operation on the target
path either. -/

/-- Pure staged mode (AtomicSponge, the default): Begin creates the fresh
sponge file; Transfer appends to it through atomicWriteStep; Abort is a
no-op; Complete closes, stats, chmods and renames; Cleanup removes the
sponge file if it still exists. -/
def stagedRun (fs0 : FS) (target : GoStr) (env : StagedEnv) (reads : List ReadStep) :
    List FsOp × RunRes :=
  match env.beginErr with
  | some e => ([], .err e)
  | none =>
    let sp := env.spongeFn
    let tr := Transfer (atomicWriteStep sp) reads (env.writeResults, [FsOp.createEmpty sp])
    match tr.2 with
    | .ranOut => (tr.1.2, .ranOut)
    | .failure e =>
      (tr.1.2 ++ cleanupOps (applyOps fs0 tr.1.2) sp env.leaveDirty, .err e)
    | .success =>
      let c := atomicComplete sp target env.completeEnv
      let trace2 := tr.1.2 ++ c.1
      let trace3 := trace2 ++ cleanupOps (applyOps fs0 trace2) sp env.leaveDirty
      match c.2 with
      | some e => (trace3, .err e)
      | none => (trace3, .ok)

/-- In-memory mode (MemorySponge): Transfer appends to the buffer; Abort
and Cleanup are no-ops; Complete stats the target and writes the whole
buffer (or panics, per memorySpongeComplete). -/
def memoryRun (target : GoStr) (env : MemEnv) (reads : List ReadStep) :
    List FsOp × RunRes :=
  let tr := Transfer memWrite reads []
  match tr.2 with
  | .ranOut => ([], .ranOut)
  | .failure e => ([], .err e)
  | .success =>
    match memorySpongeComplete env with
    | .panicked => ([], .panicked)
    | .failed e => ([], .err e)
    | .wrote _m => ([FsOp.writeWhole target tr.1], .ok)

/-- Staged-buffered hybrid mode (AtomicMemorySponge): Transfer appends to
the buffer; Complete runs the inner AtomicSponge's Begin, a single Write
of the whole buffer (whose error, unlike in the transfer loop, is
checked), and Complete; Cleanup delegates to the inner sponge -- before
the inner Begin its SpongeFn is the empty string, whose stat is not-exist,
so there is nothing to remove. -/
def hybridRun (fs0 : FS) (target : GoStr) (env : StagedEnv) (reads : List ReadStep) :
    List FsOp × RunRes :=
  let tr := Transfer memWrite reads []
  match tr.2 with
  | .ranOut => ([], .ranOut)
  | .failure e => ([], .err e)
  | .success =>
    match env.beginErr with
    | some e => ([], .err e)
    | none =>
      let sp := env.spongeFn
      let w := atomicWriteStep sp (env.writeResults, [FsOp.createEmpty sp]) tr.1
      match w.2 with
      | some e =>
        (w.1.2 ++ cleanupOps (applyOps fs0 w.1.2) sp env.leaveDirty, .err e)
      | none =>
        let c := atomicComplete sp target env.completeEnv
        let trace2 := w.1.2 ++ c.1
        let trace3 := trace2 ++ cleanupOps (applyOps fs0 trace2) sp env.leaveDirty
        match c.2 with
        | some e => (trace3, .err e)
        | none => (trace3, .ok)

/-! ## Input selection -/

/-- A readable stream as SpongeAction sees it. -/
inductive InputSrc where
  | stdin
  | namedFile (fn : GoStr)
deriving DecidableEq, Repr

/-- OpenInput (main.go 129-135): the process's standard input when the
input flag is empty, otherwise os.Open of the named file ([openErr] is
that call's result). -/
def OpenInput (inputFlag : GoStr) (openErr : Option GoErr) : Except GoErr InputSrc :=
  if inputFlag = [] then .ok .stdin
  else
    match openErr with
    | some e => .error e
    | none => .ok (.namedFile inputFlag)

/-- The stream SpongeAction actually passes to the transfer loop: main.go
line 89 reads `err = Transfer(os.Stdin, sf)` -- literally os.Stdin, not the
stream `in` obtained from OpenInput (which is opened and then only
closed). -/
def transferInput (_inputFlag : GoStr) : InputSrc := .stdin

/-! ## Backup controller and duplication worker -/

/-- ConcurrentBackup state: the source (= target) and resolved backup
paths, and the Done channel -- none when Begin started no duplication (nil
channel), otherwise the value the single receive will yield (the error
sent by DoConcurrentCopy, or none when the channel is closed without a
send). -/
structure BackupState where
  sourceFn : GoStr
  backupFn : GoStr
  done : Option (Option GoErr)

/-- ConcurrentBackup.Abort (main.go 191-198): return nil at once when no
duplication was started, otherwise receive from Done and return what it
carries. -/
def backupAbort (cb : BackupState) : Option GoErr :=
  match cb.done with
  | none => none
  | some sig => sig

/-- ConcurrentBackup.Complete (main.go 200-216): return nil at once when
no duplication was started; otherwise receive from Done, propagate its
error; on success stat the source and propagate a stat failure, else
chmod the backup file to the statted mode.  Returns the result and the
chmod performed (path, mode), if any. -/
def backupComplete (cb : BackupState) (statSrc : Except GoErr Nat)
    (chmodErr : Option GoErr) : Option GoErr × Option (GoStr × Nat) :=
  match cb.done with
  | none => (none, none)
  | some sig =>
    match sig with
    | some e => (some e, none)
    | none =>
      match statSrc with
      | .error e => (some e, none)
      | .ok m => (chmodErr, some (cb.backupFn, m))

/-- Which terminal backup calls SpongeAction makes (aborts, completes),
per its control flow (main.go 55-108): bf.Begin failure returns before
either; sf.Begin failure calls bf.Abort; a Transfer failure calls
bf.Abort; otherwise bf.Complete is called (and on its failure sf.Abort,
which involves no backup call). -/
def backupTerminalCalls (beginBackupErr : Option GoErr) (beginSpongeErr : Option GoErr)
    (tout : TOut) : Nat × Nat :=
  match beginBackupErr with
  | some _ => (0, 0)
  | none =>
    match beginSpongeErr with
    | some _ => (1, 0)
    | none =>
      match tout with
      | .failure _ => (1, 0)
      | .ranOut => (0, 0)
      | .success => (0, 1)

/-- The fields of an os.FileInfo that Copy inspects. -/
structure FileInfoM where
  mode : Nat
  regular : Bool
  dev : Nat
  ino : Nat
deriving DecidableEq, Repr

/-- os.SameFile: false unless both stats succeeded (a nil FileInfo never
matches) and device and inode coincide. -/
def sameFile : Option FileInfoM → Option FileInfoM → Bool
  | some a, some b => a.dev == b.dev && a.ino == b.ino
  | _, _ => false

/-- Environment for Copy: the results of its stat, link, open and create
calls. -/
structure CopyEnv where
  statSrc : Except GoErr FileInfoM
  statDest : Except GoErr FileInfoM
  linkErr : Option GoErr
  openSrcErr : Option GoErr
  createDestErr : Option GoErr

/-- Result of Copy: (nil, err), (nil, nil) -- already satisfied, nothing
to wait for -- or (done, nil) with the DoConcurrentCopy goroutine started
and the done channel pending. -/
inductive CopyRes where
  | failed (e : GoErr)
  | satisfied
  | started
deriving DecidableEq, Repr

/-- The tail of Copy after both stats: identity short-circuit, hard-link
attempt, then open source, create destination and start the background
copy. -/
def copyTail (sfi : FileInfoM) (dfi : Option FileInfoM) (env : CopyEnv) : CopyRes × Bool :=
  if sameFile (some sfi) dfi then (.satisfied, false)
  else
    match env.linkErr with
    | none => (.satisfied, true)
    | some _ =>
      match env.openSrcErr with
      | some e => (.failed e, false)
      | none =>
        match env.createDestErr with
        | some e => (.failed e, false)
        | none => (.started, true)

/-- Copy (main.go 438-491).  The boolean records whether the destination
path came into existence (hard link succeeded, or os.Create succeeded). -/
def Copy (src dest : GoStr) (env : CopyEnv) : CopyRes × Bool :=
  if src = dest then (.failed .sameName, false)
  else
    match env.statSrc with
    | .error e => if e = .notExist then (.satisfied, false) else (.failed e, false)
    | .ok sfi =>
      if !sfi.regular then (.failed .nonRegularSource, false)
      else
        match env.statDest with
        | .error e =>
          if e ≠ .notExist then (.failed e, false)
          else copyTail sfi none env
        | .ok dfi =>
          if !dfi.regular then (.failed .nonRegularDest, false)
          else copyTail sfi (some dfi) env

/-- The appendFile operations the transfer loop performs on the sponge
file when every OS write completes in full. -/
def mkAppendOps (sp : GoStr) : List ReadStep → List FsOp
  | [] => []
  | r :: rest =>
    let pre : List FsOp := if 0 < r.chunk.length then [FsOp.appendFile sp r.chunk] else []
    if r.chunk.length = 0 ∧ r.err = some .eof then pre
    else
      match r.err with
      | some _ => pre
      | none => pre ++ mkAppendOps sp rest

/-- Shape of the file-system trace of a staged or hybrid run: first
operations on the sponge file only (creation and appends), then at most
one rename of the sponge file onto the target, then at most one removal
of the sponge file. -/
def traceShape (sp t : GoStr) (ops : List FsOp) : Prop :=
  ∃ l1 l2 l3, ops = l1 ++ l2 ++ l3 ∧
    (∀ op ∈ l1, op = FsOp.createEmpty sp ∨ ∃ b, op = FsOp.appendFile sp b) ∧
    (l2 = [] ∨ l2 = [FsOp.renameFile sp t]) ∧
    (l3 = [] ∨ l3 = [FsOp.removeFile sp])

/-- A write function that evolves the buffer exactly like memWrite but
reports an error on every call; used to exhibit that the transfer loop's
behaviour is independent of write results. -/
def memWriteFailing (s : Bytes) (d : Bytes) : Bytes × Option GoErr :=
  (s ++ d, some (GoErr.code 7))

/-! ## Concrete values used to evaluate the models at specific inputs -/

/-- The empty file system. -/
def fsEmpty : FS := fun _ => none

/-- A stream delivering the bytes 7, 8, 9 and then a clean end of
stream. -/
def readsOkW : List ReadStep :=
  [{ chunk := [7, 8, 9], err := none }, { chunk := [], err := some GoErr.eof }]

/-- A Complete-phase environment in which every OS call succeeds and the
target does not yet exist. -/
def completeEnvOkW : CompleteEnv :=
  { closeErr := none, statTarget := Except.error GoErr.notExist,
    chmodErr := none, renameErr := none }

/-- A staged-run environment in which every OS call succeeds and the
target does not yet exist. -/
def stagedEnvOkW : StagedEnv :=
  { beginErr := none, spongeFn := "/s".toList, writeResults := [],
    completeEnv := completeEnvOkW, leaveDirty := false }

/-- The same environment except that the first OS write writes a single
byte and reports an error. -/
def stagedEnvShortW : StagedEnv :=
  { stagedEnvOkW with writeResults := [(1, some (GoErr.code 5))] }

/-! ## Helper lemmas -/

theorem FS.set_self (fs : FS) (fn : GoStr) (v : Option Bytes) : fs.set fn v fn = v := by
  simp [FS.set]

theorem FS.set_other (fs : FS) (fn x : GoStr) (v : Option Bytes) (h : x ≠ fn) :
    fs.set fn v x = fs x := by
  simp [FS.set, h]

theorem applyOps_append (fs : FS) (a b : List FsOp) :
    applyOps fs (a ++ b) = applyOps (applyOps fs a) b := by
  simp [applyOps, List.foldl_append]

theorem applyOps_cons (fs : FS) (op : FsOp) (l : List FsOp) :
    applyOps fs (op :: l) = applyOps (op.apply fs) l := rfl

theorem applyOps_nil (fs : FS) : applyOps fs [] = fs := rfl

theorem transfer_snd {σ : Type} (w : σ → Bytes → σ × Option GoErr) :
    ∀ (reads : List ReadStep) (s : σ), (Transfer w reads s).2 = transferOutcome reads := by
  intro reads
  induction reads with
  | nil => intro s; rfl
  | cons r rest ih =>
    intro s
    simp only [Transfer, transferOutcome]
    by_cases h : r.chunk.length = 0 ∧ r.err = some .eof
    · simp [h]
    · simp only [if_neg h]
      cases herr : r.err with
      | some e => rfl
      | none => exact ih _

theorem transferStep_memWrite (r : ReadStep) (s : Bytes) :
    transferStep memWrite r s = s ++ r.chunk := by
  simp only [transferStep, memWrite]
  by_cases h : 0 < r.chunk.length
  · simp [h]
  · have hch : r.chunk = [] := List.length_eq_zero.mp (by omega)
    simp [h, hch]

theorem transfer_mem_fst : ∀ (reads : List ReadStep) (s : Bytes),
    (Transfer memWrite reads s).1 = s ++ deliveredChunks reads := by
  intro reads
  induction reads with
  | nil => intro s; simp [Transfer, deliveredChunks]
  | cons r rest ih =>
    intro s
    simp only [Transfer, deliveredChunks, transferStep_memWrite]
    by_cases h : r.chunk.length = 0 ∧ r.err = some .eof
    · have hch : r.chunk = [] := List.length_eq_zero.mp h.1
      simp [h, hch]
    · simp only [if_neg h]
      cases herr : r.err with
      | some e => simp
      | none => simp [ih]

theorem transfer_staged_empty (sp : GoStr) : ∀ (reads : List ReadStep) (ops0 : List FsOp),
    Transfer (atomicWriteStep sp) reads (([] : WriteResults), ops0)
      = ((([] : WriteResults), ops0 ++ mkAppendOps sp reads), transferOutcome reads) := by
  intro reads
  induction reads with
  | nil => intro ops0; simp [Transfer, mkAppendOps, transferOutcome]
  | cons r rest ih =>
    intro ops0
    have hstep : transferStep (atomicWriteStep sp) r (([] : WriteResults), ops0)
        = (([] : WriteResults), ops0 ++ (if 0 < r.chunk.length
            then [FsOp.appendFile sp r.chunk] else [])) := by
      simp only [transferStep]
      by_cases h : 0 < r.chunk.length
      · simp [h, atomicWriteStep, List.take_length]
      · simp [h]
    simp only [Transfer, mkAppendOps, hstep]
    by_cases h : r.chunk.length = 0 ∧ r.err = some .eof
    · simp [h, transferOutcome]
    · simp only [if_neg h]
      cases herr : r.err with
      | some e =>
        have h2 : ¬(r.chunk = [] ∧ e = GoErr.eof) := by
          intro hc
          exact h ⟨by simp [hc.1], by simp [herr, hc.2]⟩
        simp [transferOutcome, herr, h2]
      | none => simp [ih, transferOutcome, if_neg h, herr, List.append_assoc]

theorem applyOps_mkAppendOps (sp : GoStr) : ∀ (reads : List ReadStep) (fs : FS) (c : Bytes),
    fs sp = some c →
    applyOps fs (mkAppendOps sp reads) sp = some (c ++ deliveredChunks reads) := by
  intro reads
  induction reads with
  | nil => intro fs c hc; simp [mkAppendOps, applyOps, deliveredChunks, hc]
  | cons r rest ih =>
    intro fs c hc
    by_cases h : r.chunk.length = 0 ∧ r.err = some .eof
    · have hch : r.chunk = [] := List.length_eq_zero.mp h.1
      simp [mkAppendOps, deliveredChunks, h, hch, applyOps, hc]
    · have happ : applyOps fs (if 0 < r.chunk.length
          then [FsOp.appendFile sp r.chunk] else []) sp = some (c ++ r.chunk) := by
        by_cases hcl : 0 < r.chunk.length
        · simp [hcl, applyOps, FsOp.apply, hc, FS.set_self]
        · have hch : r.chunk = [] := List.length_eq_zero.mp (by omega)
          simp [hcl, applyOps, hc, hch]
      simp only [mkAppendOps, deliveredChunks, if_neg h]
      cases herr : r.err with
      | some e => simpa using happ
      | none =>
        simp only [applyOps_append]
        rw [ih _ (c ++ r.chunk) happ, List.append_assoc]

theorem transfer_atomic_ops (sp : GoStr) :
    ∀ (reads : List ReadStep) (rs : WriteResults) (ops0 : List FsOp),
    ∃ l, (Transfer (atomicWriteStep sp) reads (rs, ops0)).1.2 = ops0 ++ l ∧
      ∀ op ∈ l, ∃ b, op = FsOp.appendFile sp b := by
  intro reads
  induction reads with
  | nil => intro rs ops0; exact ⟨[], by simp [Transfer], by simp⟩
  | cons r rest ih =>
    intro rs ops0
    have hstep : ∃ rs1 pre, transferStep (atomicWriteStep sp) r (rs, ops0)
        = (rs1, ops0 ++ pre) ∧ ∀ op ∈ pre, ∃ b, op = FsOp.appendFile sp b := by
      simp only [transferStep]
      by_cases h : 0 < r.chunk.length
      · refine ⟨(match rs with | [] => ([] : WriteResults) | _ :: rs1 => rs1),
          [FsOp.appendFile sp (r.chunk.take (match rs with
            | [] => (r.chunk.length, (none : Option GoErr)) | q :: _ => q).1)], ?_, ?_⟩
        · simp [h, atomicWriteStep]
        · intro op hop
          simp at hop
          exact ⟨_, hop⟩
      · exact ⟨rs, [], by simp [h], by simp⟩
    obtain ⟨rs1, pre, hst, hpre⟩ := hstep
    simp only [Transfer, hst]
    by_cases h : r.chunk.length = 0 ∧ r.err = some .eof
    · exact ⟨pre, by simp [h], hpre⟩
    · simp only [if_neg h]
      cases herr : r.err with
      | some e => exact ⟨pre, by simp, hpre⟩
      | none =>
        obtain ⟨l, hl, hall⟩ := ih rs1 (ops0 ++ pre)
        refine ⟨pre ++ l, by simp [hl, List.append_assoc], ?_⟩
        intro op hop
        rcases List.mem_append.mp hop with hin | hin
        · exact hpre op hin
        · exact hall op hin

theorem FsOp.apply_notouch (op : FsOp) (t : GoStr) (fs : FS)
    (h : op.touches t = false) : op.apply fs t = fs t := by
  cases op with
  | createEmpty fn =>
    simp only [FsOp.touches, beq_eq_false_iff_ne] at h
    simp [FsOp.apply, FS.set_other _ _ _ _ (Ne.symm h)]
  | appendFile fn b =>
    simp only [FsOp.touches, beq_eq_false_iff_ne] at h
    simp [FsOp.apply, FS.set_other _ _ _ _ (Ne.symm h)]
  | writeWhole fn b =>
    simp only [FsOp.touches, beq_eq_false_iff_ne] at h
    simp [FsOp.apply, FS.set_other _ _ _ _ (Ne.symm h)]
  | renameFile src dst =>
    simp only [FsOp.touches, Bool.or_eq_false_iff, beq_eq_false_iff_ne] at h
    simp only [FsOp.apply]
    cases hs : fs src with
    | none => rfl
    | some c =>
      show ((fs.set src none).set dst (some c)) t = fs t
      rw [FS.set_other _ _ _ _ (Ne.symm h.2), FS.set_other _ _ _ _ (Ne.symm h.1)]
  | removeFile fn =>
    simp only [FsOp.touches, beq_eq_false_iff_ne] at h
    simp [FsOp.apply, FS.set_other _ _ _ _ (Ne.symm h)]

theorem applyOps_notouch (t : GoStr) :
    ∀ (ops : List FsOp) (fs : FS), (∀ op ∈ ops, op.touches t = false) →
      applyOps fs ops t = fs t := by
  intro ops
  induction ops with
  | nil => intro fs _; rfl
  | cons op rest ih =>
    intro fs h
    rw [applyOps_cons, ih _ (fun o ho => h o (List.mem_cons_of_mem _ ho)),
      FsOp.apply_notouch op t fs (h op (List.mem_cons_self _ _))]

theorem prefix_view (t sp : GoStr) :
    ∀ (ops : List FsOp) (fs : FS),
      (∀ op ∈ ops, op.touches t = true → op = FsOp.renameFile sp t) →
      ((ops.filter (fun op => op.touches t)).length ≤ 1) →
      ∀ k, applyOps fs (ops.take k) t = fs t ∨
        applyOps fs (ops.take k) t = applyOps fs ops t := by
  intro ops
  induction ops with
  | nil => intro fs _ _ k; left; simp [applyOps]
  | cons op rest ih =>
    intro fs h1 h2 k
    cases k with
    | zero => left; simp [applyOps]
    | succ k =>
      rw [List.take_succ_cons]
      simp only [applyOps_cons]
      by_cases hop : op.touches t = true
      · -- the single rename: everything after it is untouched
        have hfil : (op :: rest).filter (fun o => o.touches t)
            = op :: rest.filter (fun o => o.touches t) := by
          simp [List.filter_cons, hop]
        rw [hfil, List.length_cons] at h2
        have hnil : rest.filter (fun o => o.touches t) = [] :=
          List.length_eq_zero.mp (by omega)
        have hrest : ∀ o ∈ rest, o.touches t = false := by
          intro o ho
          have := List.filter_eq_nil_iff.mp hnil o ho
          simpa using this
        right
        rw [applyOps_notouch t _ _ (fun o ho => hrest o (List.take_subset _ _ ho)),
          applyOps_notouch t rest _ hrest]
      · have hft : op.touches t = false := by
          cases hv : op.touches t with
          | true => exact absurd hv hop
          | false => rfl
        have h1' : ∀ o ∈ rest, o.touches t = true → o = FsOp.renameFile sp t :=
          fun o ho => h1 o (List.mem_cons_of_mem _ ho)
        have h2' : ((rest.filter (fun o => o.touches t)).length ≤ 1) := by
          have hfil : (op :: rest).filter (fun o => o.touches t)
              = rest.filter (fun o => o.touches t) := by
            simp [List.filter_cons, hft]
          rwa [hfil] at h2
        rcases ih (op.apply fs) h1' h2' k with hl | hr
        · left
          rw [hl]
          exact FsOp.apply_notouch op t fs hft
        · right; exact hr

theorem atomicComplete_ops_cases (sp t : GoStr) (env : CompleteEnv) :
    (atomicComplete sp t env).1 = [] ∨ (atomicComplete sp t env).1 = [FsOp.renameFile sp t] := by
  unfold atomicComplete
  cases env.closeErr with
  | some e => left; rfl
  | none =>
    cases env.statTarget with
    | error e =>
      by_cases h : e ≠ GoErr.notExist
      · simp [h]
      · simp only [if_neg h]
        cases env.renameErr with
        | some e1 => left; rfl
        | none => right; rfl
    | ok m =>
      cases env.renameErr with
      | some e1 => left; rfl
      | none => right; rfl

theorem cleanupOps_cases (fs : FS) (sp : GoStr) (ld : Bool) :
    cleanupOps fs sp ld = [] ∨ cleanupOps fs sp ld = [FsOp.removeFile sp] := by
  unfold cleanupOps
  cases ld with
  | true => left; rfl
  | false =>
    cases fs sp with
    | none => left; rfl
    | some c => right; rfl

theorem cleanupOps_of_gone (fs : FS) (sp : GoStr) (ld : Bool) (h : fs sp = none) :
    cleanupOps fs sp ld = [] := by
  unfold cleanupOps
  cases ld with
  | true => rfl
  | false => simp [h]

theorem stagedRun_shape (fs0 : FS) (target : GoStr) (env : StagedEnv) (reads : List ReadStep) :
    traceShape env.spongeFn target (stagedRun fs0 target env reads).1 := by
  obtain ⟨l, hl, hall⟩ := transfer_atomic_ops env.spongeFn reads env.writeResults
    [FsOp.createEmpty env.spongeFn]
  have hl1 : ∀ op ∈ [FsOp.createEmpty env.spongeFn] ++ l,
      op = FsOp.createEmpty env.spongeFn ∨ ∃ b, op = FsOp.appendFile env.spongeFn b := by
    intro op hop
    rcases List.mem_append.mp hop with h | h
    · simp at h; exact Or.inl h
    · exact Or.inr (hall op h)
  simp only [stagedRun]
  cases hbe : env.beginErr with
  | some e => exact ⟨[], [], [], by simp, by simp, Or.inl rfl, Or.inl rfl⟩
  | none =>
    cases htr : Transfer (atomicWriteStep env.spongeFn) reads
        (env.writeResults, [FsOp.createEmpty env.spongeFn]) with
    | mk st out =>
      rw [htr] at hl
      replace hl : st.2 = [FsOp.createEmpty env.spongeFn] ++ l := hl
      cases out with
      | ranOut =>
        exact ⟨[FsOp.createEmpty env.spongeFn] ++ l, [], [], by simp [hl], hl1,
          Or.inl rfl, Or.inl rfl⟩
      | failure e =>
        refine ⟨[FsOp.createEmpty env.spongeFn] ++ l, [],
          cleanupOps (applyOps fs0 st.2) env.spongeFn env.leaveDirty, by simp [hl], hl1,
          Or.inl rfl, cleanupOps_cases _ _ _⟩
      | success =>
        cases hc2 : (atomicComplete env.spongeFn target env.completeEnv).2 with
        | some e =>
          refine ⟨[FsOp.createEmpty env.spongeFn] ++ l,
            (atomicComplete env.spongeFn target env.completeEnv).1,
            cleanupOps (applyOps fs0 (st.2 ++ (atomicComplete env.spongeFn target
              env.completeEnv).1)) env.spongeFn env.leaveDirty,
            by simp [hl, hc2], hl1, atomicComplete_ops_cases _ _ _, cleanupOps_cases _ _ _⟩
        | none =>
          refine ⟨[FsOp.createEmpty env.spongeFn] ++ l,
            (atomicComplete env.spongeFn target env.completeEnv).1,
            cleanupOps (applyOps fs0 (st.2 ++ (atomicComplete env.spongeFn target
              env.completeEnv).1)) env.spongeFn env.leaveDirty,
            by simp [hl, hc2], hl1, atomicComplete_ops_cases _ _ _, cleanupOps_cases _ _ _⟩

theorem hybridRun_shape (fs0 : FS) (target : GoStr) (env : StagedEnv) (reads : List ReadStep) :
    traceShape env.spongeFn target (hybridRun fs0 target env reads).1 := by
  simp only [hybridRun]
  cases htr : Transfer memWrite reads ([] : Bytes) with
  | mk data out =>
    cases out with
    | ranOut => exact ⟨[], [], [], by simp, by simp, Or.inl rfl, Or.inl rfl⟩
    | failure e => exact ⟨[], [], [], by simp, by simp, Or.inl rfl, Or.inl rfl⟩
    | success =>
      cases hbe : env.beginErr with
      | some e => exact ⟨[], [], [], by simp, by simp, Or.inl rfl, Or.inl rfl⟩
      | none =>
        cases hw : atomicWriteStep env.spongeFn
            (env.writeResults, [FsOp.createEmpty env.spongeFn]) data with
        | mk st ret =>
          have hops : st.2 = [FsOp.createEmpty env.spongeFn]
              ++ [FsOp.appendFile env.spongeFn ((data.take (match env.writeResults with
                | [] => (data.length, (none : Option GoErr)) | q :: _ => q).1))] := by
            have : (atomicWriteStep env.spongeFn
                (env.writeResults, [FsOp.createEmpty env.spongeFn]) data).1.2
                = [FsOp.createEmpty env.spongeFn] ++ [FsOp.appendFile env.spongeFn
                  ((data.take (match env.writeResults with
                    | [] => (data.length, (none : Option GoErr)) | q :: _ => q).1))] := by
              simp [atomicWriteStep]
            rwa [hw] at this
          have hl1 : ∀ op ∈ st.2,
              op = FsOp.createEmpty env.spongeFn ∨ ∃ b, op = FsOp.appendFile env.spongeFn b := by
            intro op hop
            rw [hops] at hop
            rcases List.mem_append.mp hop with h | h
            · simp at h; exact Or.inl h
            · simp at h; exact Or.inr ⟨_, h⟩
          cases ret with
          | some e =>
            refine ⟨st.2, [],
              cleanupOps (applyOps fs0 st.2) env.spongeFn env.leaveDirty,
              by simp, hl1, Or.inl rfl, cleanupOps_cases _ _ _⟩
          | none =>
            cases hc2 : (atomicComplete env.spongeFn target env.completeEnv).2 with
            | some e =>
              refine ⟨st.2, (atomicComplete env.spongeFn target env.completeEnv).1,
                cleanupOps (applyOps fs0 (st.2 ++ (atomicComplete env.spongeFn target
                  env.completeEnv).1)) env.spongeFn env.leaveDirty,
                by simp [hc2], hl1, atomicComplete_ops_cases _ _ _, cleanupOps_cases _ _ _⟩
            | none =>
              refine ⟨st.2, (atomicComplete env.spongeFn target env.completeEnv).1,
                cleanupOps (applyOps fs0 (st.2 ++ (atomicComplete env.spongeFn target
                  env.completeEnv).1)) env.spongeFn env.leaveDirty,
                by simp [hc2], hl1, atomicComplete_ops_cases _ _ _, cleanupOps_cases _ _ _⟩

theorem traceShape_props {sp t : GoStr} {ops : List FsOp}
    (hs : traceShape sp t ops) (hne : sp ≠ t) :
    (∀ op ∈ ops, op.touches t = true → op = FsOp.renameFile sp t) ∧
    ((ops.filter (fun op => op.touches t)).length ≤ 1) ∧
    (∀ fs k, applyOps fs (ops.take k) t = fs t ∨
      applyOps fs (ops.take k) t = applyOps fs ops t) := by
  obtain ⟨l1, l2, l3, heq, h1, h2, h3⟩ := hs
  have hbne : (sp == t) = false := beq_eq_false_iff_ne.mpr hne
  have hl1f : ∀ op ∈ l1, op.touches t = false := by
    intro op hop
    rcases h1 op hop with h | ⟨b, h⟩ <;> subst h <;> simp [FsOp.touches, hbne]
  have hl3f : ∀ op ∈ l3, op.touches t = false := by
    intro op hop
    rcases h3 with h | h <;> subst h
    · simp at hop
    · simp at hop
      subst hop
      simp [FsOp.touches, hbne]
  have honly : ∀ op ∈ ops, op.touches t = true → op = FsOp.renameFile sp t := by
    intro op hop htt
    rw [heq] at hop
    rcases List.mem_append.mp hop with hin | hin3
    · rcases List.mem_append.mp hin with hin1 | hin2
      · rw [hl1f op hin1] at htt; cases htt
      · rcases h2 with h | h <;> subst h
        · simp at hin2
        · simpa using hin2
    · rw [hl3f op hin3] at htt; cases htt
  refine ⟨honly, ?_, ?_⟩
  · have hf1 : l1.filter (fun op => op.touches t) = [] :=
      List.filter_eq_nil_iff.mpr (fun a ha => by simp [hl1f a ha])
    have hf3 : l3.filter (fun op => op.touches t) = [] :=
      List.filter_eq_nil_iff.mpr (fun a ha => by simp [hl3f a ha])
    have hf2 : (l2.filter (fun op => op.touches t)).length ≤ 1 := by
      rcases h2 with h | h <;> subst h
      · simp
      · simp [List.filter_cons]
        cases hv : FsOp.touches t (FsOp.renameFile sp t) <;> simp
    rw [heq]
    simp [List.filter_append, hf1, hf3]
    exact hf2
  · intro fs k
    refine prefix_view t sp ops fs honly ?_ k
    have hf1 : l1.filter (fun op => op.touches t) = [] :=
      List.filter_eq_nil_iff.mpr (fun a ha => by simp [hl1f a ha])
    have hf3 : l3.filter (fun op => op.touches t) = [] :=
      List.filter_eq_nil_iff.mpr (fun a ha => by simp [hl3f a ha])
    have hf2 : (l2.filter (fun op => op.touches t)).length ≤ 1 := by
      rcases h2 with h | h <;> subst h
      · simp
      · simp [List.filter_cons]
        cases hv : FsOp.touches t (FsOp.renameFile sp t) <;> simp
    rw [heq]
    simp [List.filter_append, hf1, hf3]
    exact hf2

theorem atomicComplete_none_ops (sp t : GoStr) (env : CompleteEnv)
    (h : (atomicComplete sp t env).2 = none) :
    (atomicComplete sp t env).1 = [FsOp.renameFile sp t] := by
  obtain ⟨ce, st, ch, re⟩ := env
  cases ce with
  | some e => simp [atomicComplete] at h
  | none =>
    cases st with
    | error e =>
      by_cases he : e = GoErr.notExist
      · subst he
        cases re with
        | some e1 => simp [atomicComplete] at h
        | none => simp [atomicComplete]
      · simp [atomicComplete, he] at h
    | ok m =>
      cases re with
      | some e1 => simp [atomicComplete] at h
      | none => simp [atomicComplete]

theorem commit_content (fs0 : FS) (sp t : GoStr) (pre : List FsOp) (c : Bytes) (ld : Bool)
    (hne : sp ≠ t) (hsp : applyOps fs0 pre sp = some c) :
    applyOps fs0 ((pre ++ [FsOp.renameFile sp t])
      ++ cleanupOps (applyOps fs0 (pre ++ [FsOp.renameFile sp t])) sp ld) t = some c := by
  have hmid : applyOps fs0 (pre ++ [FsOp.renameFile sp t])
      = ((applyOps fs0 pre).set sp none).set t (some c) := by
    rw [applyOps_append]
    show FsOp.apply (applyOps fs0 pre) (FsOp.renameFile sp t) = _
    simp only [FsOp.apply, hsp]
  have hgone : applyOps fs0 (pre ++ [FsOp.renameFile sp t]) sp = none := by
    rw [hmid, FS.set_other _ _ _ _ hne, FS.set_self]
  rw [cleanupOps_of_gone _ _ _ hgone, List.append_nil, hmid, FS.set_self]

theorem pre_content (fs0 : FS) (sp : GoStr) (reads : List ReadStep) :
    applyOps fs0 ([FsOp.createEmpty sp] ++ mkAppendOps sp reads) sp
      = some (deliveredChunks reads) := by
  have hc : (FsOp.apply fs0 (FsOp.createEmpty sp)) sp = some [] := FS.set_self _ _ _
  have := applyOps_mkAppendOps sp reads (FsOp.apply fs0 (FsOp.createEmpty sp)) [] hc
  simpa [applyOps_cons] using this

/-! ## Claim theorems -/

/-- C7: the transfer loop returns success on a zero-byte EOF read without
touching the sponge; on any cons of reads it succeeds exactly when that
read is a zero-byte EOF or is error-free and the rest succeeds; a read
error other than a bare EOF terminates the loop with that error, after
the bytes of the read were fed to Write; an error-free read never
terminates the loop (a zero-length one leaving the state untouched); and
the per-read step passes exactly the n > 0 bytes read to Write. -/
theorem transfer_termination_conditions :
    (∀ (σ : Type) (w : σ → Bytes → σ × Option GoErr) (rest : List ReadStep) (s : σ),
      Transfer w ({ chunk := [], err := some GoErr.eof } :: rest) s = (s, TOut.success)) ∧
    (∀ (σ : Type) (w : σ → Bytes → σ × Option GoErr) (r : ReadStep) (rest : List ReadStep)
        (s : σ),
      (Transfer w (r :: rest) s).2 = TOut.success ↔
        ((r.chunk = [] ∧ r.err = some GoErr.eof) ∨
          (r.err = none ∧ (Transfer w rest (transferStep w r s)).2 = TOut.success))) ∧
    (∀ (σ : Type) (w : σ → Bytes → σ × Option GoErr) (r : ReadStep) (rest : List ReadStep)
        (s : σ) (e : GoErr), r.err = some e → ¬(r.chunk = [] ∧ e = GoErr.eof) →
      Transfer w (r :: rest) s = (transferStep w r s, TOut.failure e)) ∧
    (∀ (σ : Type) (w : σ → Bytes → σ × Option GoErr) (r : ReadStep) (rest : List ReadStep)
        (s : σ), r.err = none →
      Transfer w (r :: rest) s = Transfer w rest (transferStep w r s)) ∧
    (∀ (σ : Type) (w : σ → Bytes → σ × Option GoErr) (r : ReadStep) (s : σ),
      0 < r.chunk.length → transferStep w r s = (w s r.chunk).1) := by
  refine ⟨?_, ?_, ?_, ?_, ?_⟩
  · intro σ w rest s
    simp [Transfer, transferStep]
  · intro σ w r rest s
    simp only [Transfer]
    by_cases h : r.chunk.length = 0 ∧ r.err = some .eof
    · have hch : r.chunk = [] := List.length_eq_zero.mp h.1
      simp [h, hch]
    · simp only [if_neg h]
      cases herr : r.err with
      | some e =>
        constructor
        · intro hc; cases hc
        · rintro (⟨hch, hee⟩ | ⟨hn, _⟩)
          · exact absurd ⟨by simp [hch], herr.trans hee⟩ h
          · cases hn
      | none =>
        constructor
        · intro hc; exact Or.inr ⟨rfl, hc⟩
        · rintro (⟨hch, hee⟩ | ⟨_, hc⟩)
          · cases hee
          · exact hc
  · intro σ w r rest s e herr h2
    simp only [Transfer, herr]
    have hng : ¬(r.chunk.length = 0 ∧ r.err = some GoErr.eof) := by
      rintro ⟨hl, he⟩
      rw [herr] at he
      injection he with he
      exact h2 ⟨List.length_eq_zero.mp hl, he⟩
    rw [herr] at hng
    simp only [if_neg hng]
  · intro σ w r rest s herr
    simp only [Transfer, herr]
    have hng : ¬(r.chunk.length = 0 ∧ r.err = some GoErr.eof) := by
      rintro ⟨_, he⟩
      rw [herr] at he
      cases he
    rw [herr] at hng
    simp [if_neg hng]
  · intro σ w r s h
    simp [transferStep, h]

/-- Witness for transfer_termination_conditions: a concrete zero-byte EOF
read terminates the loop successfully at once. -/
theorem transfer_termination_conditions_witness :
    Transfer memWrite [{ chunk := [], err := some GoErr.eof }] ([] : Bytes)
      = (([] : Bytes), TOut.success) :=
  transfer_termination_conditions.1 Bytes memWrite [] []

/-- C8: the outcome of the transfer loop is a function of the read
results alone, and two write functions with the same state evolution but
different error results produce identical loop behaviour: a failure
returned by Write neither terminates the loop nor appears in its
result. -/
theorem transfer_outcome_ignores_write_results :
    (∀ (σ : Type) (w : σ → Bytes → σ × Option GoErr) (reads : List ReadStep) (s : σ),
      (Transfer w reads s).2 = transferOutcome reads) ∧
    (∀ (σ : Type) (w1 w2 : σ → Bytes → σ × Option GoErr),
      (∀ s d, (w1 s d).1 = (w2 s d).1) →
      ∀ (reads : List ReadStep) (s : σ), Transfer w1 reads s = Transfer w2 reads s) := by
  constructor
  · intro σ w reads s
    exact transfer_snd w reads s
  · intro σ w1 w2 hw reads
    induction reads with
    | nil => intro s; rfl
    | cons r rest ih =>
      intro s
      have hstep : transferStep w1 r s = transferStep w2 r s := by
        simp [transferStep, hw]
      simp only [Transfer, hstep]
      by_cases h : r.chunk.length = 0 ∧ r.err = some .eof
      · simp [h]
      · simp only [if_neg h]
        cases herr : r.err with
        | some e => rfl
        | none => exact ih _

/-- Witness for transfer_outcome_ignores_write_results: a write function
that fails on every call produces the same loop behaviour as one that
never fails. -/
theorem transfer_outcome_ignores_write_results_witness :
    Transfer memWrite [{ chunk := [1, 2], err := none },
        { chunk := [], err := some GoErr.eof }] ([] : Bytes)
      = Transfer memWriteFailing [{ chunk := [1, 2], err := none },
        { chunk := [], err := some GoErr.eof }] ([] : Bytes) :=
  transfer_outcome_ignores_write_results.2 Bytes memWrite memWriteFailing
    (fun _ _ => rfl)
    [{ chunk := [1, 2], err := none }, { chunk := [], err := some GoErr.eof }] []

/-- C3: with the alternate-input flag set to "f", OpenInput returns the
named file, but the stream SpongeAction hands to the transfer loop is
os.Stdin (main.go 88-89 passes os.Stdin, not the opened stream), which
differs from the alternate source. -/
theorem transfer_reads_stdin_not_alternate_input :
    OpenInput "f".toList none = Except.ok (InputSrc.namedFile "f".toList) ∧
    transferInput "f".toList = InputSrc.stdin ∧
    InputSrc.stdin ≠ InputSrc.namedFile "f".toList := by
  refine ⟨rfl, rfl, by decide⟩

/-- C6: MemorySponge.Complete evaluated at the two stat outcomes: with an
existing target of mode 0644 the whole-buffer write is issued with
DEFAULT_MODE (0600), not the statted bits, and with a missing target the
method dereferences the nil FileInfo (modelled as panicked) instead of
falling back to DEFAULT_MODE -- the `if err != nil` guarding the mode
assignment is inverted relative to the claim. -/
theorem memory_complete_mode_inverted :
    memorySpongeComplete { statTarget := Except.ok 0o644, writeFileErr := none }
      = MemCompleteOut.wrote DEFAULT_MODE ∧
    DEFAULT_MODE ≠ 0o644 ∧
    memorySpongeComplete { statTarget := Except.error GoErr.notExist, writeFileErr := none }
      = MemCompleteOut.panicked := by
  exact ⟨rfl, by decide, rfl⟩

/-- C9 counterexample: the staging-directory resolver does not use the
same token set as the backup resolver: for target /tmp/foo the template
consisting of the file token alone is left unchanged by TempDir, while
the claimed expansion (performed by BackupFile) yields /tmp/foo. -/
theorem tempdir_file_token_not_expanded :
    TempDir "{file}".toList "/tmp/foo".toList = "{file}".toList ∧
    BackupFile "{file}".toList "/tmp/foo".toList = "/tmp/foo".toList ∧
    TempDir "{file}".toList "/tmp/foo".toList ≠ "/tmp/foo".toList := by
  exact ⟨by decide, by decide, by decide⟩

/-- C9 amended: both resolvers expand the dir and base tokens
identically -- for a nonempty template the backup resolution is exactly
the staging resolution with the file token then expanded, so the staging
resolver handles dir and base as the backup resolver does but never
expands the file token; an empty staging template resolves to the
target's directory; and both resolvers compute the documented values on
the spec's examples. -/
theorem template_token_resolution :
    (∀ (tmpl targetFn : GoStr), tmpl ≠ [] →
      BackupFile tmpl targetFn
        = goReplaceAll (TempDir tmpl targetFn) "{file}".toList targetFn) ∧
    (∀ (targetFn : GoStr), TempDir [] targetFn = pathDir targetFn) ∧
    BackupFile "{dir}/{base}.bak".toList "/tmp/foo".toList = "/tmp/foo.bak".toList ∧
    BackupFile "{file}.old".toList "/tmp/foo".toList = "/tmp/foo.old".toList ∧
    TempDir "{dir}/{base}.bak".toList "/tmp/foo".toList = "/tmp/foo.bak".toList := by
  refine ⟨?_, ?_, by decide, by decide, by decide⟩
  · intro tmpl t h
    simp only [BackupFile, TempDir, if_neg h]
  · intro t
    simp [TempDir]

/-- Witness for template_token_resolution at a concrete nonempty
template. -/
theorem template_token_resolution_witness :
    BackupFile "{base}.bak".toList "/tmp/foo".toList
      = goReplaceAll (TempDir "{base}.bak".toList "/tmp/foo".toList)
          "{file}".toList "/tmp/foo".toList :=
  template_token_resolution.1 "{base}.bak".toList "/tmp/foo".toList (by decide)

/-- C10: AtomicSponge.Complete ignores a chmod failure: with a successful
close and target stat its result is independent of the chmod result and
equals the rename result, on rename success the rename is still
performed, and any error it returns comes from the close, a non-not-exist
stat failure, or the rename. -/
theorem atomic_complete_chmod_failure_ignored :
    (∀ (sp t : GoStr) (env : CompleteEnv) (c1 c2 : Option GoErr),
      atomicComplete sp t { env with chmodErr := c1 }
        = atomicComplete sp t { env with chmodErr := c2 }) ∧
    (∀ (sp t : GoStr) (env : CompleteEnv) (m : Nat),
      env.closeErr = none → env.statTarget = Except.ok m →
      (atomicComplete sp t env).2 = env.renameErr) ∧
    (∀ (sp t : GoStr) (env : CompleteEnv) (m : Nat),
      env.closeErr = none → env.statTarget = Except.ok m → env.renameErr = none →
      atomicComplete sp t env = ([FsOp.renameFile sp t], none)) ∧
    (∀ (sp t : GoStr) (env : CompleteEnv) (e : GoErr),
      (atomicComplete sp t env).2 = some e →
      env.closeErr = some e ∨
        (env.statTarget = Except.error e ∧ e ≠ GoErr.notExist) ∨
        env.renameErr = some e) := by
  refine ⟨?_, ?_, ?_, ?_⟩
  · intro sp t env c1 c2
    rfl
  · intro sp t env m hc hs
    simp only [atomicComplete, hc, hs]
    cases env.renameErr <;> rfl
  · intro sp t env m hc hs hr
    simp only [atomicComplete, hc, hs, hr]
  · intro sp t env e
    obtain ⟨ce, st, ch, re⟩ := env
    cases ce with
    | some e1 =>
      intro h
      simp [atomicComplete] at h
      subst h
      exact Or.inl rfl
    | none =>
      cases st with
      | error e1 =>
        by_cases he : e1 = GoErr.notExist
        · subst he
          cases re with
          | some e2 =>
            intro h
            simp [atomicComplete] at h
            subst h
            exact Or.inr (Or.inr rfl)
          | none => intro h; simp [atomicComplete] at h
        · intro h
          simp [atomicComplete, he] at h
          subst h
          exact Or.inr (Or.inl ⟨rfl, he⟩)
      | ok m =>
        cases re with
        | some e2 =>
          intro h
          simp [atomicComplete] at h
          subst h
          exact Or.inr (Or.inr rfl)
        | none => intro h; simp [atomicComplete] at h

/-- Witness for atomic_complete_chmod_failure_ignored: a concrete
Complete with a failing chmod still renames and succeeds. -/
theorem atomic_complete_chmod_failure_ignored_witness :
    atomicComplete "/s".toList "/t".toList
        { closeErr := none, statTarget := Except.ok 0o644,
          chmodErr := some (GoErr.code 13), renameErr := none }
      = ([FsOp.renameFile "/s".toList "/t".toList], none) :=
  atomic_complete_chmod_failure_ignored.2.2.1 "/s".toList "/t".toList
    { closeErr := none, statTarget := Except.ok 0o644,
      chmodErr := some (GoErr.code 13), renameErr := none } 0o644 rfl rfl rfl

/-- C5: Abort returns immediately with no error when no duplication was
started and otherwise yields exactly the value the completion signal
carries; Complete propagates the duplication error without touching
permissions, and on a clean signal re-stats the source (propagating the
stat failure) and applies the statted mode to the backup copy; and across
SpongeAction's control flow at most one of Abort and Complete runs, so
the single completion signal is consumed at most once. -/
theorem backup_abort_complete_protocol :
    (∀ (cb : BackupState), cb.done = none → backupAbort cb = none) ∧
    (∀ (cb : BackupState) (sig : Option GoErr), cb.done = some sig → backupAbort cb = sig) ∧
    (∀ (cb : BackupState) (st : Except GoErr Nat) (ce : Option GoErr) (e : GoErr),
      cb.done = some (some e) → backupComplete cb st ce = (some e, none)) ∧
    (∀ (cb : BackupState) (ce : Option GoErr) (m : Nat),
      cb.done = some none →
      backupComplete cb (Except.ok m) ce = (ce, some (cb.backupFn, m))) ∧
    (∀ (cb : BackupState) (ce : Option GoErr) (e : GoErr),
      cb.done = some none →
      backupComplete cb (Except.error e) ce = (some e, none)) ∧
    (∀ (b s : Option GoErr) (t : TOut),
      (backupTerminalCalls b s t).1 + (backupTerminalCalls b s t).2 ≤ 1) := by
  refine ⟨?_, ?_, ?_, ?_, ?_, ?_⟩
  · intro cb h; simp [backupAbort, h]
  · intro cb sig h; simp [backupAbort, h]
  · intro cb st ce e h; simp [backupComplete, h]
  · intro cb ce m h; simp [backupComplete, h]
  · intro cb ce e h; simp [backupComplete, h]
  · intro b s t
    cases b with
    | some e => simp [backupTerminalCalls]
    | none =>
      cases s with
      | some e => simp [backupTerminalCalls]
      | none => cases t <;> simp [backupTerminalCalls]

/-- Witness for backup_abort_complete_protocol: a concrete Complete after
a clean signal chmods the backup to the freshly statted mode. -/
theorem backup_abort_complete_protocol_witness :
    backupComplete { sourceFn := "/t".toList, backupFn := "/b".toList, done := some none }
        (Except.ok 0o640) none
      = (none, some ("/b".toList, 0o640)) :=
  backup_abort_complete_protocol.2.2.2.1
    { sourceFn := "/t".toList, backupFn := "/b".toList, done := some none } none 0o640 rfl

/-- C4: the duplication worker's policy in source order: equal paths are
an error; a missing source is already satisfied with the destination
never created; a stat failure or non-regular file on either side is an
error; filesystem identity is already satisfied; a successful hard link
is already satisfied; otherwise the files are opened (open and create
failures propagated) and the background byte copy is started with a
pending completion signal. -/
theorem copy_policy_order :
    (∀ (src : GoStr) (env : CopyEnv), Copy src src env = (CopyRes.failed GoErr.sameName, false)) ∧
    (∀ (src dest : GoStr) (env : CopyEnv), src ≠ dest →
      env.statSrc = Except.error GoErr.notExist → Copy src dest env = (CopyRes.satisfied, false)) ∧
    (∀ (src dest : GoStr) (env : CopyEnv) (e : GoErr), src ≠ dest →
      env.statSrc = Except.error e → e ≠ GoErr.notExist →
      Copy src dest env = (CopyRes.failed e, false)) ∧
    (∀ (src dest : GoStr) (env : CopyEnv) (sfi : FileInfoM), src ≠ dest →
      env.statSrc = Except.ok sfi → sfi.regular = false →
      Copy src dest env = (CopyRes.failed GoErr.nonRegularSource, false)) ∧
    (∀ (src dest : GoStr) (env : CopyEnv) (sfi : FileInfoM) (e : GoErr), src ≠ dest →
      env.statSrc = Except.ok sfi → sfi.regular = true →
      env.statDest = Except.error e → e ≠ GoErr.notExist →
      Copy src dest env = (CopyRes.failed e, false)) ∧
    (∀ (src dest : GoStr) (env : CopyEnv) (sfi dfi : FileInfoM), src ≠ dest →
      env.statSrc = Except.ok sfi → sfi.regular = true →
      env.statDest = Except.ok dfi → dfi.regular = false →
      Copy src dest env = (CopyRes.failed GoErr.nonRegularDest, false)) ∧
    (∀ (src dest : GoStr) (env : CopyEnv) (sfi dfi : FileInfoM), src ≠ dest →
      env.statSrc = Except.ok sfi → sfi.regular = true →
      env.statDest = Except.ok dfi → dfi.regular = true →
      sameFile (some sfi) (some dfi) = true →
      Copy src dest env = (CopyRes.satisfied, false)) ∧
    (∀ (src dest : GoStr) (env : CopyEnv) (sfi : FileInfoM), src ≠ dest →
      env.statSrc = Except.ok sfi → sfi.regular = true →
      (env.statDest = Except.error GoErr.notExist ∨
        ∃ dfi, env.statDest = Except.ok dfi ∧ dfi.regular = true ∧
          sameFile (some sfi) (some dfi) = false) →
      ((env.linkErr = none → Copy src dest env = (CopyRes.satisfied, true)) ∧
       (∀ le e, env.linkErr = some le → env.openSrcErr = some e →
          Copy src dest env = (CopyRes.failed e, false)) ∧
       (∀ le e, env.linkErr = some le → env.openSrcErr = none →
          env.createDestErr = some e →
          Copy src dest env = (CopyRes.failed e, false)) ∧
       (∀ le, env.linkErr = some le → env.openSrcErr = none →
          env.createDestErr = none →
          Copy src dest env = (CopyRes.started, true)))) := by
  refine ⟨?_, ?_, ?_, ?_, ?_, ?_, ?_, ?_⟩
  · intro src env; simp [Copy]
  · intro src dest env hne hs; simp [Copy, hne, hs]
  · intro src dest env e hne hs he; simp [Copy, hne, hs, he]
  · intro src dest env sfi hne hs hr; simp [Copy, hne, hs, hr]
  · intro src dest env sfi e hne hs hr hd he; simp [Copy, hne, hs, hr, hd, he]
  · intro src dest env sfi dfi hne hs hr hd hdr; simp [Copy, hne, hs, hr, hd, hdr]
  · intro src dest env sfi dfi hne hs hr hd hdr hsame
    simp [Copy, copyTail, hne, hs, hr, hd, hdr, hsame]
  · intro src dest env sfi hne hs hr hd
    have htail : Copy src dest env = copyTail sfi
        (match env.statDest with | Except.ok dfi => some dfi | Except.error _ => none) env ∧
        sameFile (some sfi) (match env.statDest with
          | Except.ok dfi => some dfi | Except.error _ => none) = false := by
      rcases hd with hmiss | ⟨dfi, hok, hreg, hsame⟩
      · constructor
        · simp [Copy, hne, hs, hr, hmiss]
        · simp [hmiss, sameFile]
      · constructor
        · simp [Copy, hne, hs, hr, hok, hreg]
        · simp [hok, hsame]

    refine ⟨?_, ?_, ?_, ?_⟩
    · intro hl
      rw [htail.1]
      simp [copyTail, htail.2, hl]
    · intro le e hl ho
      rw [htail.1]
      simp [copyTail, htail.2, hl, ho]
    · intro le e hl ho hc
      rw [htail.1]
      simp [copyTail, htail.2, hl, ho, hc]
    · intro le hl ho hc
      rw [htail.1]
      simp [copyTail, htail.2, hl, ho, hc]

/-- Witness for copy_policy_order: a concrete Copy with a missing source
is already satisfied and creates no destination. -/
theorem copy_policy_order_witness :
    Copy "/t".toList "/t.bak".toList
        { statSrc := Except.error GoErr.notExist, statDest := Except.error GoErr.notExist,
          linkErr := none, openSrcErr := none, createDestErr := none }
      = (CopyRes.satisfied, false) :=
  copy_policy_order.2.1 "/t".toList "/t.bak".toList
    { statSrc := Except.error GoErr.notExist, statDest := Except.error GoErr.notExist,
      linkErr := none, openSrcErr := none, createDestErr := none }
    (by decide) rfl

/-- C2: in the staged and staged-buffered hybrid modes, every file
operation of a run that mutates the target path is the single rename of
the sponge file onto the target (no create, write or remove ever hits the
target path), at most one such rename occurs, and after every prefix of
the run's operation trace the target path holds either its initial
contents or the run's final contents -- never an intermediate state. -/
theorem atomic_commit_single_rename (fs0 : FS) (target : GoStr) (env : StagedEnv)
    (reads : List ReadStep) (h : env.spongeFn ≠ target) :
    ((∀ op ∈ (stagedRun fs0 target env reads).1, op.touches target = true →
        op = FsOp.renameFile env.spongeFn target) ∧
      (((stagedRun fs0 target env reads).1.filter
        (fun op => op.touches target)).length ≤ 1) ∧
      (∀ k, applyOps fs0 ((stagedRun fs0 target env reads).1.take k) target = fs0 target ∨
        applyOps fs0 ((stagedRun fs0 target env reads).1.take k) target =
          applyOps fs0 (stagedRun fs0 target env reads).1 target)) ∧
    ((∀ op ∈ (hybridRun fs0 target env reads).1, op.touches target = true →
        op = FsOp.renameFile env.spongeFn target) ∧
      (((hybridRun fs0 target env reads).1.filter
        (fun op => op.touches target)).length ≤ 1) ∧
      (∀ k, applyOps fs0 ((hybridRun fs0 target env reads).1.take k) target = fs0 target ∨
        applyOps fs0 ((hybridRun fs0 target env reads).1.take k) target =
          applyOps fs0 (hybridRun fs0 target env reads).1 target)) := by
  have hst := traceShape_props (stagedRun_shape fs0 target env reads) h
  have hhy := traceShape_props (hybridRun_shape fs0 target env reads) h
  exact ⟨⟨hst.1, hst.2.1, fun k => hst.2.2 fs0 k⟩, ⟨hhy.1, hhy.2.1, fun k => hhy.2.2 fs0 k⟩⟩

/-- Witness for atomic_commit_single_rename at a concrete staged and
hybrid run over the empty file system. -/
theorem atomic_commit_single_rename_witness :
    (((stagedRun fsEmpty "/t".toList stagedEnvOkW readsOkW).1.filter
      (fun op => op.touches "/t".toList)).length ≤ 1) ∧
    (((hybridRun fsEmpty "/t".toList stagedEnvOkW readsOkW).1.filter
      (fun op => op.touches "/t".toList)).length ≤ 1) :=
  ⟨(atomic_commit_single_rename fsEmpty "/t".toList stagedEnvOkW readsOkW
      (by decide)).1.2.1,
   (atomic_commit_single_rename fsEmpty "/t".toList stagedEnvOkW readsOkW
      (by decide)).2.2.1⟩

/-- C1 amended: after a successful run the target's contents equal the
delivered byte sequence S exactly -- unconditionally for the in-memory and
hybrid modes, and for the pure staged mode provided the OS completes
every sponge write in full (empty writeResults); without that proviso a
staged run can succeed with bytes missing, because the transfer loop
discards Write failures (see the counterexample). -/
theorem roundtrip_of_successful_run (fs0 : FS) (target : GoStr) (reads : List ReadStep) :
    (∀ (envM : MemEnv), (memoryRun target envM reads).2 = RunRes.ok →
      applyOps fs0 (memoryRun target envM reads).1 target
        = some (deliveredChunks reads)) ∧
    (∀ (env : StagedEnv), env.writeResults = [] → env.spongeFn ≠ target →
      (stagedRun fs0 target env reads).2 = RunRes.ok →
      applyOps fs0 (stagedRun fs0 target env reads).1 target
        = some (deliveredChunks reads)) ∧
    (∀ (env : StagedEnv), env.spongeFn ≠ target →
      (hybridRun fs0 target env reads).2 = RunRes.ok →
      applyOps fs0 (hybridRun fs0 target env reads).1 target
        = some (deliveredChunks reads)) := by
  refine ⟨?_, ?_, ?_⟩
  · intro envM
    simp only [memoryRun]
    rcases htr : Transfer memWrite reads ([] : Bytes) with ⟨data, out⟩
    have hdata : data = deliveredChunks reads := by
      have h := transfer_mem_fst reads []
      rw [htr] at h
      simpa using h
    subst hdata
    cases out with
    | ranOut => intro hok; exact RunRes.noConfusion hok
    | failure e => intro hok; exact RunRes.noConfusion hok
    | success =>
      cases hm : memorySpongeComplete envM with
      | panicked => intro hok; exact RunRes.noConfusion hok
      | failed e => intro hok; exact RunRes.noConfusion hok
      | wrote m =>
        intro _
        simp [applyOps, FsOp.apply, FS.set_self]
  · intro env hwr hne
    simp only [stagedRun]
    cases hbe : env.beginErr with
    | some e => intro hok; exact RunRes.noConfusion hok
    | none =>
      rw [hwr, transfer_staged_empty]
      cases hto : transferOutcome reads with
      | ranOut => intro hok; exact RunRes.noConfusion hok
      | failure e => intro hok; exact RunRes.noConfusion hok
      | success =>
        cases hc2 : (atomicComplete env.spongeFn target env.completeEnv).2 with
        | some e => intro hok; exact RunRes.noConfusion hok
        | none =>
          intro _
          have hrn := atomicComplete_none_ops env.spongeFn target env.completeEnv hc2
          rw [hrn]
          exact commit_content fs0 env.spongeFn target
            ([FsOp.createEmpty env.spongeFn] ++ mkAppendOps env.spongeFn reads)
            (deliveredChunks reads) env.leaveDirty hne
            (pre_content fs0 env.spongeFn reads)
  · intro env hne
    simp only [hybridRun]
    rcases htr : Transfer memWrite reads ([] : Bytes) with ⟨data, out⟩
    have hdata : data = deliveredChunks reads := by
      have h := transfer_mem_fst reads []
      rw [htr] at h
      simpa using h
    subst hdata
    cases out with
    | ranOut => intro hok; exact RunRes.noConfusion hok
    | failure e => intro hok; exact RunRes.noConfusion hok
    | success =>
      cases hbe : env.beginErr with
      | some e => intro hok; exact RunRes.noConfusion hok
      | none =>
        rcases hw : atomicWriteStep env.spongeFn
            (env.writeResults, [FsOp.createEmpty env.spongeFn])
            (deliveredChunks reads) with ⟨st, ret⟩
        cases ret with
        | some e => intro hok; exact RunRes.noConfusion hok
        | none =>
          have hst : (atomicWriteStep env.spongeFn
              (env.writeResults, [FsOp.createEmpty env.spongeFn])
              (deliveredChunks reads)).1 = st := by rw [hw]
          have hret : (atomicWriteStep env.spongeFn
              (env.writeResults, [FsOp.createEmpty env.spongeFn])
              (deliveredChunks reads)).2 = none := by rw [hw]
          have hst2 : st.2 = [FsOp.createEmpty env.spongeFn]
              ++ [FsOp.appendFile env.spongeFn (deliveredChunks reads)] := by
            cases hwrs : env.writeResults with
            | nil =>
              rw [hwrs] at hst
              rw [← hst]
              simp [atomicWriteStep, List.take_length]
            | cons q rs =>
              rw [hwrs] at hst hret
              rcases q with ⟨n, qe⟩
              cases qe with
              | some e => simp [atomicWriteStep] at hret
              | none =>
                by_cases hn : n < (deliveredChunks reads).length
                · simp [atomicWriteStep, hn] at hret
                · rw [← hst]
                  have htk : (deliveredChunks reads).take n = deliveredChunks reads :=
                    List.take_of_length_le (by omega)
                  simp [atomicWriteStep, htk]
          cases hc2 : (atomicComplete env.spongeFn target env.completeEnv).2 with
          | some e => intro hok; exact RunRes.noConfusion hok
          | none =>
            intro _
            have hrn := atomicComplete_none_ops env.spongeFn target env.completeEnv hc2
            rw [hrn, hst2]
            have hpre : applyOps fs0 ([FsOp.createEmpty env.spongeFn]
                ++ [FsOp.appendFile env.spongeFn (deliveredChunks reads)])
                env.spongeFn = some (deliveredChunks reads) := by
              simp [applyOps, FsOp.apply, FS.set_self]
            exact commit_content fs0 env.spongeFn target _ _ env.leaveDirty hne hpre

/-- Witness for roundtrip_of_successful_run: a fully successful concrete
staged run installs exactly the delivered bytes at the target. -/
theorem roundtrip_of_successful_run_witness :
    applyOps fsEmpty (stagedRun fsEmpty "/t".toList stagedEnvOkW readsOkW).1 "/t".toList
      = some (deliveredChunks readsOkW) :=
  (roundtrip_of_successful_run fsEmpty "/t".toList readsOkW).2.1 stagedEnvOkW rfl
    (by decide) (by decide)

/-- C1 counterexample: a staged run in which the single OS write is cut
short (one byte written, error reported) still returns success, because
the transfer loop ignores the Write result, leaving the target holding
[7] although the stream delivered [7, 8, 9]. -/
theorem staged_run_loses_ignored_short_write :
    (stagedRun fsEmpty "/t".toList stagedEnvShortW readsOkW).2 = RunRes.ok ∧
    deliveredChunks readsOkW = [7, 8, 9] ∧
    applyOps fsEmpty (stagedRun fsEmpty "/t".toList stagedEnvShortW readsOkW).1
      "/t".toList = some [7] ∧
    some [7] ≠ some (deliveredChunks readsOkW) := by
  exact ⟨by decide, by decide, by decide, by decide⟩

end Spunge
